import Mathlib

/-!
# Verification of the dtparse date/time parser

A shallow embedding of `src/lib.rs` (the `dtparse` crate: tokenizer,
`ParserInfo`, YMD resolver, core token-walking parser and assembler),
together with theorems settling the specification claims.

Conventions of the embedding:
* Rust `i32` values are modelled as `Int` (all arithmetic in the parser is
  far from the `i32` range on the inputs considered); Rust `/` and `%` on
  integers truncate toward zero, modelled by `Int.tdiv` / `Int.tmod`.
* `rust_decimal::Decimal` values are modelled by the exact decimal
  fixed-point structure `Dec` (`num / 10^scale`).
* Fallible operations return `Except PErr`; Rust panics (`unwrap` on `None`,
  out-of-bounds `Vec` indexing, `chrono` constructor aborts) are modelled by
  the distinguished error `PErr.panic`.
* Rust `char::is_numeric` / `is_alphabetic` / `is_whitespace` are modelled by
  their ASCII restrictions `isNumCh` / `isAlphaCh` / `isWsCh`.
-/

namespace Dtparse

/-- ASCII model of Rust `char::is_numeric`. -/
def isNumCh (c : Char) : Bool := 48 ≤ c.toNat && c.toNat ≤ 57

/-- ASCII model of Rust `char::is_alphabetic`. -/
def isAlphaCh (c : Char) : Bool :=
  (65 ≤ c.toNat && c.toNat ≤ 90) || (97 ≤ c.toNat && c.toNat ≤ 122)

/-- ASCII model of Rust `char::is_whitespace` (space, tab, LF, VT, FF, CR). -/
def isWsCh (c : Char) : Bool :=
  c.toNat = 32 || c.toNat = 9 || c.toNat = 10 || c.toNat = 11 ||
  c.toNat = 12 || c.toNat = 13

/-- `days_in_month` from `src/lib.rs:547`.  The leap-year test is the one the
code performs: `year % 4 == 0 && year % 400 != 0` (no `% 100` component). -/
def daysInMonth (year month : Int) : Except Unit Nat :=
  let leapYear : Bool :=
    if year.tmod 4 = 0 then year.tmod 400 ≠ 0 else false
  if month = 2 then (if leapYear then .ok 29 else .ok 28)
  else if month = 1 ∨ month = 3 ∨ month = 5 ∨ month = 7 ∨ month = 8 ∨
          month = 10 ∨ month = 12 then .ok 31
  else if month = 4 ∨ month = 6 ∨ month = 9 ∨ month = 11 then .ok 30
  else .error ()  -- ParseError::InvalidMonth

/-- `ParserInfo::convertyear` from `src/lib.rs:513`, with the `ParserInfo`
fields `year` and `century` passed explicitly. -/
def convertyear (refYear century : Int) (year : Int)
    (centurySpecified : Bool) : Int :=
  if year < 100 ∧ ¬centurySpecified then
    let y1 := year + century
    if y1 ≥ refYear + 50 then y1 - 100
    else if y1 < refYear - 50 then y1 + 100
    else y1
  else year

/-- The `century` field as computed in `ParserInfo::default`:
`year / 100 * 100` with Rust (truncating) division. -/
def centuryOf (refYear : Int) : Int := refYear.tdiv 100 * 100

end Dtparse

namespace Dtparse

/-- `YMDLabel` from `src/lib.rs:569`. -/
inductive YMDLabel
  | year
  | month
  | day
  deriving DecidableEq, Repr

/-- Internal parse errors (`ParseInternalError`, `src/lib.rs:93`). -/
inductive InternalErr
  | ymdEarlyResolve
  | ymdValueUnset
  | parseIndexError
  | invalidDecimal
  | invalidInteger
  | valueError
  deriving DecidableEq, Repr

/-- Errors surfaced by the parser (`ParseError`, `src/lib.rs:125`), with
`PErr.panic` additionally modelling Rust panics (unwraps, out-of-bounds
indexing, `chrono` constructor aborts). -/
inductive PErr
  | ambiguousWeekday
  | internalError (k : InternalErr)
  | invalidDay
  | invalidMonth
  | unrecognizedToken (tok : List Char)
  | invalidParseResult
  | amPmWithoutHour
  | invalidHour
  | timezoneUnsupported
  | panic
  deriving DecidableEq, Repr

/-- The `YMD` accumulator (`src/lib.rs:579`). -/
structure YMD where
  ymd : List Int
  centurySpecified : Bool
  dstridx : Option Nat
  mstridx : Option Nat
  ystridx : Option Nat
  deriving DecidableEq, Repr

def YMD.default : YMD := ⟨[], false, none, none, none⟩

/-- The `strids` map of `YMD::resolve_ymd`, modelled as one optional index
per label (a `HashMap<YMDLabel, usize>` keyed by the three labels). -/
structure Strids where
  y : Option Nat
  m : Option Nat
  d : Option Nat
  deriving DecidableEq, Repr

def Strids.size (s : Strids) : Nat :=
  (if s.y.isSome then 1 else 0) + (if s.m.isSome then 1 else 0) +
  (if s.d.isSome then 1 else 0)

def Strids.containsVal (s : Strids) (v : Nat) : Bool :=
  s.y == some v || s.m == some v || s.d == some v

/-- `YMD::resolve_from_stridxs` (`src/lib.rs:685`).  List indexing is in
bounds whenever the indices were set by `append`, but Rust would panic
otherwise, which the `Option.getD` default never observes on reachable
states. -/
def resolveFromStridxs (ymd : List Int) (strids : Strids) :
    Except PErr (Option Int × Option Int × Option Int) :=
  let strids :=
    if ymd.length = 3 ∧ strids.size = 2 then
      let missingVal : Nat :=
        if ¬strids.containsVal 0 then 0
        else if ¬strids.containsVal 1 then 1
        else 2
      if strids.y.isNone then { strids with y := some missingVal }
      else if strids.m.isNone then { strids with m := some missingVal }
      else { strids with d := some missingVal }
    else strids
  if ymd.length ≠ strids.size then
    .error (.internalError .ymdEarlyResolve)
  else
    .ok (strids.y.map (fun i => ymd.getD i 0),
         strids.m.map (fun i => ymd.getD i 0),
         strids.d.map (fun i => ymd.getD i 0))

/-- `YMD::resolve_ymd` (`src/lib.rs:727`). -/
def YMD.resolveYmd (self : YMD) (yearfirst dayfirst : Bool) :
    Except PErr (Option Int × Option Int × Option Int) :=
  let lenYmd := self.ymd.length
  let strids : Strids := ⟨self.ystridx, self.mstridx, self.dstridx⟩
  if (lenYmd = strids.size ∧ strids.size > 0) ∨
     (lenYmd = 3 ∧ strids.size = 2) then
    resolveFromStridxs self.ymd strids
  else if lenYmd > 3 then
    .error (.internalError .valueError)  -- "More than three YMD values"
  else
    let v (i : Nat) : Int := self.ymd.getD i 0
    match lenYmd, self.mstridx with
    | 1, some mi =>
      let other := v 0
      if other > 31 then .ok (some other, some (v mi), none)
      else .ok (none, some (v mi), some other)
    | 2, some mi =>
      let other := v (1 - mi)
      if other > 31 then .ok (some other, some (v mi), none)
      else .ok (none, some (v mi), some other)
    | 2, none =>
      if v 0 > 31 then .ok (some (v 0), some (v 1), none)
      else if v 1 > 31 then .ok (some (v 1), some (v 0), none)
      else if dayfirst ∧ v 1 ≤ 12 then .ok (none, some (v 1), some (v 0))
      else .ok (none, some (v 0), some (v 1))
    | 3, some 0 =>
      if v 1 > 31 then .ok (some (v 1), some (v 0), some (v 2))
      else .ok (some (v 2), some (v 0), some (v 1))
    | 3, some 1 =>
      if v 0 > 31 ∨ (yearfirst ∧ v 2 ≤ 31) then
        .ok (some (v 0), some (v 1), some (v 2))
      else .ok (some (v 2), some (v 1), some (v 0))
    | 3, some 2 =>
      if v 1 > 31 then .ok (some (v 2), some (v 1), some (v 0))
      else .ok (some (v 0), some (v 2), some (v 1))
    | 3, none =>
      if v 0 > 31 ∨ self.ystridx = some 0 ∨
         (yearfirst ∧ v 1 ≤ 12 ∧ v 2 ≤ 31) then
        if dayfirst ∧ v 2 ≤ 12 then .ok (some (v 0), some (v 2), some (v 1))
        else .ok (some (v 0), some (v 1), some (v 2))
      else if v 0 > 12 ∨ (dayfirst ∧ v 1 ≤ 12) then
        .ok (some (v 2), some (v 1), some (v 0))
      else .ok (some (v 2), some (v 0), some (v 1))
    | _, _ => .ok (none, none, none)

end Dtparse

namespace Dtparse

/-- C3 helper: the standard Gregorian leap rule, as the spec states it
("divisible by 4 and not by 100 unless also by 400"). -/
def gregorianLeap (y : Int) : Bool :=
  y.tmod 4 = 0 ∧ (y.tmod 100 ≠ 0 ∨ y.tmod 400 = 0)

end Dtparse

namespace Dtparse

/-- `ParseState` from `src/lib.rs:162`. -/
inductive ParseState
  | empty
  | alpha
  | alphaDecimal
  | numeric
  | numericDecimal
  deriving DecidableEq, Repr

/-- Result of one run of the tokenizer state machine: the accumulated
`char_stack`, the `seen_letters` flag, the final state, and the input that
was not consumed (pushed-back characters included). -/
structure MRes where
  buf : List Char
  seen : Bool
  state : ParseState
  rest : List Char
  deriving DecidableEq, Repr

/-- The per-character state machine of `Tokenizer::next`
(`src/lib.rs:195-262`).  `buf` is `char_stack`; a branch that Rust handles
by pushing the character back and `break`ing returns with the character
still at the head of `rest`. -/
def runMachine : ParseState → List Char → Bool → List Char → MRes
  | st, buf, seen, [] => ⟨buf, seen, st, []⟩
  | st, buf, seen, c :: rest =>
    match st with
    | .empty =>
      if isNumCh c then runMachine .numeric (buf ++ [c]) seen rest
      else if isAlphaCh c then runMachine .alpha (buf ++ [c]) true rest
      else if isWsCh c then ⟨buf ++ [' '], seen, .empty, rest⟩
      else ⟨buf ++ [c], seen, .empty, rest⟩
    | .alpha =>
      if isAlphaCh c then runMachine .alpha (buf ++ [c]) seen rest
      else if c = '.' then runMachine .alphaDecimal (buf ++ [c]) seen rest
      else ⟨buf, seen, .alpha, c :: rest⟩
    | .alphaDecimal =>
      if c = '.' ∨ isAlphaCh c then
        runMachine .alphaDecimal (buf ++ [c]) seen rest
      else if isNumCh c ∧ buf.getLast? = some '.' then
        runMachine .numericDecimal (buf ++ [c]) seen rest
      else ⟨buf, seen, .alphaDecimal, c :: rest⟩
    | .numeric =>
      if isNumCh c then runMachine .numeric (buf ++ [c]) seen rest
      else if c = '.' ∨ (c = ',' ∧ buf.length ≥ 2) then
        runMachine .numericDecimal (buf ++ [c]) seen rest
      else ⟨buf, seen, .numeric, c :: rest⟩
    | .numericDecimal =>
      if c = '.' ∨ isNumCh c then
        runMachine .numericDecimal (buf ++ [c]) seen rest
      else if isAlphaCh c ∧ buf.getLast? = some '.' then
        runMachine .alphaDecimal (buf ++ [c]) seen rest
      else ⟨buf, seen, .numericDecimal, c :: rest⟩

/-- `decimal_split` (`src/lib.rs:306`).  Only the states `Empty`, `Alpha`
and `Numeric` are reachable from the `Empty` entry state; the remaining
states are a `panic!` in Rust and return `[]` here. -/
def decimalSplit (castPeriod : Bool) : ParseState → List Char → List Char →
    List (List Char)
  | .empty, _, [] => []
  | .alpha, acc, [] => [acc]
  | .numeric, acc, [] => [acc]
  | .empty, acc, c :: rest =>
    if isAlphaCh c then decimalSplit castPeriod .alpha (acc ++ [c]) rest
    else if isNumCh c then decimalSplit castPeriod .numeric (acc ++ [c]) rest
    else [if castPeriod then '.' else c] ::
      decimalSplit castPeriod .empty acc rest
  | .alpha, acc, c :: rest =>
    if isAlphaCh c then decimalSplit castPeriod .alpha (acc ++ [c]) rest
    else acc :: [if castPeriod then '.' else c] ::
      decimalSplit castPeriod .empty [] rest
  | .numeric, acc, c :: rest =>
    if isNumCh c then decimalSplit castPeriod .numeric (acc ++ [c]) rest
    else acc :: [if castPeriod then '.' else c] ::
      decimalSplit castPeriod .empty [] rest
  | .alphaDecimal, _, _ => []
  | .numericDecimal, _, _ => []

/-- `str::replace(",", ".")` applied per character. -/
def commaToDot (c : Char) : Char := if c = ',' then '.' else c

/-- The `needs_split` test of `Tokenizer::next` (`src/lib.rs:269`). -/
def needsSplit (buf : List Char) (seen : Bool) : Prop :=
  seen = true ∨ buf.count '.' > 1 ∨ buf.getLast? = some '.' ∨
  buf.getLast? = some ','

instance (buf : List Char) (seen : Bool) : Decidable (needsSplit buf seen) := by
  unfold needsSplit; infer_instance

/-- The token list produced from one machine run, before the comma
normalization (`src/lib.rs:273-291`). -/
def splitToks (buf : List Char) (seen : Bool) (st : ParseState) :
    List (List Char) :=
  match st with
  | .alphaDecimal =>
    if needsSplit buf seen then decimalSplit false .empty [] buf else [buf]
  | .numericDecimal =>
    if needsSplit buf seen then
      decimalSplit (buf.count '.' = 0) .empty [] buf
    else [buf]
  | _ => [buf]

/-- The comma normalization applied to the first token popped after a
machine run (`src/lib.rs:297-302`). -/
def normFirst (st : ParseState) : List (List Char) → List (List Char)
  | [] => []  -- unreachable: the split of a non-empty buffer is non-empty
  | t :: ts =>
    (if st = .numericDecimal ∧ ¬t.contains '.' then t.map commaToDot else t)
      :: ts

/-- The post-machine portion of `Tokenizer::next` (`src/lib.rs:264-302`):
compute `needs_split`, split the buffer when required, and apply the
comma normalization to the first emitted token of the run. -/
def emitTokens (buf : List Char) (seen : Bool) (st : ParseState) :
    List (List Char) :=
  normFirst st (splitToks buf seen st)

/-- The tokenizer loop: each `Tokenizer::next` call that finds an empty
`token_stack` runs the machine once and pushes the resulting tokens, which
are then drained in order.  One unit of fuel is spent per machine run; a
run always consumes at least one character, so `fuel = input.length`
(see `tokenize`) never runs out. -/
def tokenizeFuel : Nat → List Char → List (List Char)
  | 0, _ => []
  | fuel + 1, input =>
    match input with
    | [] => []
    | c :: cs =>
      let r := runMachine .empty [] false (c :: cs)
      emitTokens r.buf r.seen r.state ++ tokenizeFuel fuel r.rest

/-- `tokenize` (`src/lib.rs:374`): collect the whole token sequence. -/
def tokenize (s : List Char) : List (List Char) := tokenizeFuel s.length s

end Dtparse

namespace Dtparse

/-- Value of a string of ASCII digits. -/
def natFromDigits (l : List Char) : Nat :=
  l.foldl (fun acc c => acc * 10 + (c.toNat - 48)) 0

/-- Model of Rust `str::parse::<i32>()`: an optional sign followed by at
least one digit (overflow is not modelled; every integer the parser reads
is far below `i32::MAX` on the inputs considered). -/
def strToInt (l : List Char) : Option Int :=
  match l with
  | '-' :: r =>
    if r ≠ [] ∧ r.all isNumCh then some (-(natFromDigits r : Int)) else none
  | '+' :: r =>
    if r ≠ [] ∧ r.all isNumCh then some (natFromDigits r : Int) else none
  | r =>
    if r ≠ [] ∧ r.all isNumCh then some (natFromDigits r : Int) else none

/-- Model of `rust_decimal::Decimal` (an external collaborator of the
source): an exact decimal fixed-point value `num / 10^scale`. -/
structure Dec where
  num : Int
  scale : Nat
  deriving DecidableEq, Repr

/-- Model of `rust_decimal::Decimal::from_str`: an optional sign, an
integer digit run, and an optional fractional digit run. -/
def decimalFromStr (l : List Char) : Option Dec :=
  let (sign, rest) : Int × List Char :=
    match l with
    | '-' :: r => (-1, r)
    | '+' :: r => (1, r)
    | r => (1, r)
  match rest.splitOn '.' with
  | [a] =>
    if a ≠ [] ∧ a.all isNumCh then some ⟨sign * natFromDigits a, 0⟩
    else none
  | [a, b] =>
    if a ≠ [] ∧ b ≠ [] ∧ a.all isNumCh ∧ b.all isNumCh then
      some ⟨sign * (natFromDigits a * 10 ^ b.length + natFromDigits b),
            b.length⟩
    else none
  | _ => none

/-- `Decimal::floor` (then `to_i64`, which is exact on an integral value). -/
def Dec.floor (d : Dec) : Int := d.num.ediv (10 ^ d.scale)

/-- Model of `Decimal`'s `ToPrimitive::to_i64`: truncation toward zero. -/
def Dec.trunc (d : Dec) : Int := d.num.tdiv (10 ^ d.scale)

/-- `value % *ONE`: the fractional part left by truncation. -/
def Dec.fracPart (d : Dec) : Dec := ⟨d.num - d.trunc * 10 ^ d.scale, d.scale⟩

/-- `value - value.floor()`. -/
def Dec.subFloor (d : Dec) : Dec := ⟨d.num - d.floor * 10 ^ d.scale, d.scale⟩

/-- `k * value` (for the `*SIXTY * _` products). -/
def Dec.scaleMul (k : Int) (d : Dec) : Dec := ⟨k * d.num, d.scale⟩

/-- Numeric comparison `(a : Decimal) ≤ d` for an integer `a`. -/
def Dec.intLe (a : Int) (d : Dec) : Prop := a * 10 ^ d.scale ≤ d.num

/-- Numeric comparison `d < (a : Decimal)` for an integer `a`. -/
def Dec.ltInt (d : Dec) (a : Int) : Prop := d.num < a * 10 ^ d.scale

instance (a : Int) (d : Dec) : Decidable (Dec.intLe a d) := by
  unfold Dec.intLe; infer_instance

instance (d : Dec) (a : Int) : Decidable (Dec.ltInt d a) := by
  unfold Dec.ltInt; infer_instance

/-- `close_to_integer` (`src/lib.rs:1432`): `value % ONE == ZERO`. -/
def closeToInteger (d : Dec) : Bool := d.fracPart.num = 0

/-- `ljust` (`src/lib.rs:1436`). -/
def ljust (s : List Char) (chars : Nat) (r : Char) : List Char :=
  if s.length ≥ chars then s.take chars
  else s ++ List.replicate (chars - s.length) r

/-- Lower-casing for the case-insensitive `ParserInfo` lookups. -/
def lowerCh (l : List Char) : List Char := l.map Char.toLower

/-- The default `jump` table (`src/lib.rs:426`).  The entry `"'"` is the
single apostrophe character (ASCII 39). -/
def jumpWords : List (List Char) :=
  ([" ", ".", ",", ";", "-", "/"].map String.toList) ++
  [[Char.ofNat 39]] ++
  (["at", "on", "and", "ad", "m", "t", "of", "st", "nd", "rd", "th"].map
    String.toList)

def weekdayGroups : List (List (List Char)) :=
  [["mon", "monday"], ["tue", "tues", "tuesday"], ["wed", "wednesday"],
   ["thu", "thurs", "thursday"], ["fri", "friday"], ["sat", "saturday"],
   ["sun", "sunday"]].map (List.map String.toList)

def monthGroups : List (List (List Char)) :=
  [["jan", "january"], ["feb", "february"], ["mar", "march"],
   ["apr", "april"], ["may"], ["jun", "june"], ["jul", "july"],
   ["aug", "august"], ["sep", "sept", "september"], ["oct", "october"],
   ["nov", "november"], ["dec", "december"]].map (List.map String.toList)

def hmsGroups : List (List (List Char)) :=
  [["h", "hour", "hours"], ["m", "minute", "minutes"],
   ["s", "second", "seconds"]].map (List.map String.toList)

def ampmGroups : List (List (List Char)) :=
  [["am", "a"], ["pm", "p"]].map (List.map String.toList)

def utczoneWords : List (List Char) := ["utc", "gmt", "z"].map String.toList

def pertainWords : List (List Char) := ["of"].map String.toList

/-- Group lookup as built by `parse_info` (`src/lib.rs:379`): the index of
the group containing the lower-cased word. -/
def groupIdx (groups : List (List (List Char))) (name : List Char) :
    Option Nat :=
  groups.findIdx? (fun g => g.contains (lowerCh name))

def getJump (name : List Char) : Bool := jumpWords.contains (lowerCh name)

def getWeekday (name : List Char) : Option Nat := groupIdx weekdayGroups name

def getMonth (name : List Char) : Option Nat :=
  (groupIdx monthGroups name).map (· + 1)

def getHms (name : List Char) : Option Nat := groupIdx hmsGroups name

def getAmpm (name : List Char) : Option Bool :=
  (groupIdx ampmGroups name).map (· = 1)

def getPertain (name : List Char) : Bool := pertainWords.contains (lowerCh name)

def getUtczone (name : List Char) : Bool := utczoneWords.contains (lowerCh name)

/-- `ParserInfo::get_tzoffset` with the default (empty) `tzoffset` table. -/
def getTzoffset (name : List Char) : Option Nat :=
  if getUtczone name then some 0 else none

/-- `YMD::append` (`src/lib.rs:614`).  Every call site in the source
discards the returned `Result`, so only the state mutations are observable
and the embedding returns the updated state; on the error paths the
`century_specified` flag has already been set, exactly as in the source. -/
def YMD.append (self : YMD) (val : Int) (token : List Char)
    (label : Option YMDLabel) : YMD :=
  let step1 : YMD × Option YMDLabel × Bool :=
    if (decimalFromStr token).isSome ∧ token.length > 2 then
      match label with
      | none => ({ self with centurySpecified := true }, some .year, false)
      | some .year => ({ self with centurySpecified := true }, some .year, false)
      | _ => ({ self with centurySpecified := true }, label, true)
    else (self, label, false)
  match step1 with
  | (self, _, true) => self
  | (self, label, false) =>
    let step2 : YMD × Option YMDLabel × Bool :=
      if val > 100 then
        match label with
        | none => ({ self with centurySpecified := true }, some .year, false)
        | some .year => ({ self with centurySpecified := true }, some .year, false)
        | _ => ({ self with centurySpecified := true }, label, true)
      else (self, label, false)
    match step2 with
    | (self, _, true) => self
    | (self, label, false) =>
      let self := { self with ymd := self.ymd ++ [val] }
      match label with
      | some .month =>
        if self.mstridx.isSome then self
        else { self with mstridx := some (self.ymd.length - 1) }
      | some .day =>
        if self.dstridx.isSome then self
        else { self with dstridx := some (self.ymd.length - 1) }
      | some .year =>
        if self.ystridx.isSome then self
        else { self with ystridx := some (self.ymd.length - 1) }
      | none => self

/-- `YMD::could_be_day` (`src/lib.rs:597`).  The source `unwrap`s the
`days_in_month` results; an invalid stored month would panic. -/
def YMD.couldBeDay (self : YMD) (val : Int) : Except PErr Bool :=
  if self.dstridx.isSome then .ok false
  else if self.mstridx.isNone then .ok (1 ≤ val ∧ val ≤ 31)
  else if self.ystridx.isNone then
    let month := self.ymd.getD (self.mstridx.getD 0) 0
    match daysInMonth 2000 month with
    | .ok dim => .ok (1 ≤ val ∧ val ≤ (dim : Int))
    | .error _ => .error .panic
  else
    let month := self.ymd.getD (self.mstridx.getD 0) 0
    let year := self.ymd.getD (self.ystridx.getD 0) 0
    match daysInMonth year month with
    | .ok dim => .ok (1 ≤ val ∧ val ≤ (dim : Int))
    | .error _ => .error .panic

/-- `ParsingResult` (`src/lib.rs:819`).  The `any_unused_tokens` field is
never assigned anywhere in the source and is omitted. -/
structure PRes where
  year : Option Int := none
  month : Option Int := none
  day : Option Int := none
  weekday : Option Nat := none
  hour : Option Int := none
  minute : Option Int := none
  second : Option Int := none
  microsecond : Option Int := none
  tzname : Option (List Char) := none
  tzoffset : Option Int := none
  ampm : Option Bool := none
  centurySpecified : Bool := false
  deriving DecidableEq, Repr

/-- `ParserInfo::validate` (`src/lib.rs:529`): rewrite the year through
`convert_year` and normalize the timezone fields.  Always returns `true`
in the source, so only the mutated result is returned here. -/
def validate (refYear century : Int) (res : PRes) : PRes :=
  let res :=
    match res.year with
    | some y =>
      { res with year := some (convertyear refYear century y res.centurySpecified) }
    | none => res
  if (res.tzoffset = some 0 ∧ res.tzname = none) ∨
     res.tzname = some ['Z'] then
    { res with tzname := some ("UTC".toList), tzoffset := some 0 }
  else if res.tzoffset ≠ some 0 ∧ res.tzname.isSome ∧
          getUtczone (res.tzname.getD []) then
    { res with tzoffset := some 0 }
  else res

/-- `Parser::could_be_tzname` (`src/lib.rs:1083`). -/
def couldBeTzname (hour : Option Int) (tzname : Option (List Char))
    (tzoffset : Option Int) (token : List Char) : Bool :=
  hour.isSome && tzname.isNone && tzoffset.isNone && token.length ≤ 5 &&
  token.all (fun c => 65 ≤ c.toNat && c.toNat ≤ 90)

/-- `Parser::ampm_valid` (`src/lib.rs:1097`). -/
def ampmValid (hour : Option Int) (ampm : Option Bool) (fuzzy : Bool) :
    Except PErr Bool :=
  if fuzzy ∧ ampm = some true then .ok false
  else
    match hour with
    | none => if fuzzy then .ok false else .error .amPmWithoutHour
    | some h =>
      if ¬(0 ≤ h ∧ h ≤ 12) then
        if fuzzy then .ok false else .error .invalidHour
      else .ok false

/-- `Parser::adjust_ampm` (`src/lib.rs:1322`). -/
def adjustAmpm (hour : Int) (ampm : Bool) : Int :=
  if hour < 12 ∧ ampm then hour + 12
  else if hour = 12 ∧ ¬ampm then 0
  else hour

/-- `Parser::parsems` (`src/lib.rs:1332`). -/
def parsems (s : List Char) : Except PErr (Int × Int) :=
  if s.contains '.' then
    let parts := s.splitOn '.'
    let i := parts.getD 0 []
    let f := parts.getD 1 []
    match strToInt i with
    | none => .error (.internalError .invalidInteger)
    | some iv =>
      match strToInt (ljust f 6 '0') with
      | none => .error (.internalError .invalidInteger)
      | some fv => .ok (iv, fv)
  else
    match strToInt s with
    | none => .error (.internalError .invalidInteger)
    | some v => .ok (v, 0)

/-- `Parser::to_decimal` (`src/lib.rs:1414`): `unwrap`s, so a token that
is not a decimal panics. -/
def toDecimal (s : List Char) : Except PErr Dec :=
  match decimalFromStr s with
  | some q => .ok q
  | none => .error .panic

/-- `Parser::parse_min_sec` (`src/lib.rs:1419`). -/
def parseMinSec (value : Dec) : Int × Option Int :=
  let minute := value.floor
  let rem := value.subFloor
  let second := if rem.num ≠ 0 then some (rem.scaleMul 60).floor else none
  (minute, second)

/-- `Parser::find_hms_index` (`src/lib.rs:1345`).  When `idx == 1` the last
arm evaluates `tokens[idx - 2]`, a `usize` underflow, hence the panic. -/
def findHmsIndex (tokens : List (List Char)) (idx : Nat) (allowJump : Bool) :
    Except PErr (Option Nat) :=
  let lenL := tokens.length
  let tk (i : Nat) : List Char := tokens.getD i []
  if idx + 1 < lenL ∧ (getHms (tk (idx + 1))).isSome then .ok (some (idx + 1))
  else if allowJump ∧ idx + 2 < lenL ∧ tk (idx + 1) = [' '] ∧
          (getHms (tk (idx + 2))).isSome then .ok (some (idx + 2))
  else if idx > 0 ∧ (getHms (tk (idx - 1))).isSome then .ok (some (idx - 1))
  else if lenL > 0 ∧ idx > 0 ∧ idx = lenL - 1 ∧ tk (idx - 1) = [' '] then
    if idx < 2 then .error .panic
    else if (getHms (tk (idx - 2))).isSome then .ok (some (idx - 2))
    else .ok none
  else .ok none

/-- `Parser::parse_hms` (`src/lib.rs:1372`). -/
def parseHms (tokens : List (List Char)) (idx : Nat) (hmsIndex : Option Nat) :
    Nat × Option Nat :=
  match hmsIndex with
  | none => (idx, none)
  | some hi =>
    if hi > idx then (hi, getHms (tokens.getD hi []))
    else (idx, (getHms (tokens.getD hi [])).map (· + 1))

/-- `Parser::assign_hms` (`src/lib.rs:1394`). -/
def assignHms (res : PRes) (valueRepr : List Char) (hms : Nat) :
    Except PErr PRes := do
  let value ← toDecimal valueRepr
  if hms = 0 then
    let res := { res with hour := some value.trunc }
    if ¬closeToInteger value then
      pure { res with minute := some (value.fracPart.scaleMul 60).trunc }
    else pure res
  else if hms = 1 then
    let ms := parseMinSec value
    pure { res with minute := some ms.1, second := ms.2 }
  else if hms = 2 then
    match parsems valueRepr with
    | .ok sm => pure { res with second := some sm.1, microsecond := some sm.2 }
    | .error _ => .error .panic
  else pure res

/-- `Parser::parse_numeric_token` (`src/lib.rs:1182`). -/
def parseNumericToken (tokens : List (List Char)) (idx : Nat) (ymd : YMD)
    (res : PRes) (fuzzy : Bool) : Except PErr (Nat × YMD × PRes) := do
  let valueRepr := tokens.getD idx []
  let value ← toDecimal valueRepr
  let lenLi := valueRepr.length
  let lenL := tokens.length
  let tk (i : Nat) : List Char := tokens.getD i []
  if ymd.ymd.length = 3 ∧ (lenLi = 2 ∨ lenLi = 4) ∧ res.hour = none ∧
     (idx + 1 ≥ lenL ∨ (tk (idx + 1) ≠ [':'] ∧ (getHms (tk (idx + 1))).isNone))
  then
    -- 1990101T32[59]
    let res := { res with hour := strToInt (valueRepr.take 2) }
    if lenLi = 4 then
      match strToInt ((valueRepr.drop 2).take 2) with
      | none => .error (.internalError .invalidInteger)
      | some m => .ok (idx, ymd, { res with minute := some m })
    else .ok (idx, ymd, res)
  else if lenLi = 6 ∨ (lenLi > 6 ∧ valueRepr.findIdx? (· == '.') = some 6) then
    -- YYMMDD or HHMMSS[.ss]
    if ymd.ymd.length = 0 ∧ valueRepr.findIdx? (· == '.') = none then
      match strToInt (valueRepr.take 2), strToInt ((valueRepr.drop 2).take 2),
            strToInt ((valueRepr.drop 4).take 2) with
      | some a, some b, some c =>
        let ymd := ymd.append a (valueRepr.take 2) none
        let ymd := ymd.append b ((valueRepr.drop 2).take 2) none
        let ymd := ymd.append c ((valueRepr.drop 4).take 2) none
        .ok (idx, ymd, res)
      | _, _, _ => .error .panic
    else
      -- 19990101T235959[.59]
      let res := { res with hour := strToInt (valueRepr.take 2),
                            minute := strToInt ((valueRepr.drop 2).take 2) }
      match parsems (valueRepr.drop 4) with
      | .error e => .error e
      | .ok sm =>
        .ok (idx, ymd, { res with second := some sm.1, microsecond := some sm.2 })
  else if lenLi = 8 ∨ lenLi = 12 ∨ lenLi = 14 then
    -- YYYYMMDD[HHMM[SS]]
    match strToInt (valueRepr.take 4), strToInt ((valueRepr.drop 4).take 2),
          strToInt ((valueRepr.drop 6).take 2) with
    | some y, some mo, some d =>
      let ymd := ymd.append y (valueRepr.take 4) (some .year)
      let ymd := ymd.append mo ((valueRepr.drop 4).take 2) none
      let ymd := ymd.append d ((valueRepr.drop 6).take 2) none
      if lenLi > 8 then
        match strToInt ((valueRepr.drop 8).take 2),
              strToInt ((valueRepr.drop 10).take 2) with
        | some h, some mn =>
          let res := { res with hour := some h, minute := some mn }
          if lenLi > 12 then
            match strToInt (valueRepr.drop 12) with
            | some s => .ok (idx, ymd, { res with second := some s })
            | none => .error (.internalError .invalidInteger)
          else .ok (idx, ymd, res)
        | _, _ => .error (.internalError .invalidInteger)
      else .ok (idx, ymd, res)
    | _, _, _ => .error .panic
  else do
    let hmsIdxOpt ← findHmsIndex tokens idx true
    match hmsIdxOpt with
    | some hmsIdx =>
      -- HH[ ]h or MM[ ]m or SS[.ss][ ]s
      let ph := parseHms tokens idx (some hmsIdx)
      match ph.2 with
      | some hms => do
        let res ← assignHms res valueRepr hms
        .ok (ph.1, ymd, res)
      | none => .ok (ph.1, ymd, res)
    | none =>
      if idx + 2 < lenL ∧ tk (idx + 1) = [':'] then
        -- HH:MM[:SS[.ss]]
        let res := { res with hour := some value.floor }
        let value2 ← toDecimal (tk (idx + 2))
        let ms := parseMinSec value2
        let res := { res with minute := some ms.1, second := ms.2 }
        if idx + 4 < lenL ∧ tk (idx + 3) = [':'] then
          match parsems (tk (idx + 4)) with
          | .error _ => .error .panic
          | .ok sm =>
            .ok (idx + 4, ymd,
                 { res with second := some sm.1, microsecond := some sm.2 })
        else .ok (idx + 2, ymd, res)
      else if idx + 1 < lenL ∧
              (tk (idx + 1) = ['-'] ∨ tk (idx + 1) = ['/'] ∨
               tk (idx + 1) = ['.']) then
        let sep := tk (idx + 1)
        match strToInt valueRepr with
        | none => .error .panic
        | some v0 =>
          let ymd := ymd.append v0 valueRepr none
          if idx + 2 < lenL ∧ ¬getJump (tk (idx + 2)) then
            let ymd :=
              match strToInt (tk (idx + 2)) with
              | some val => ymd.append val (tk (idx + 2)) none
              | none =>
                match getMonth (tk (idx + 2)) with
                | some m => ymd.append (m : Int) (tk (idx + 2)) (some .month)
                | none => ymd
            if idx + 3 < lenL ∧ tk (idx + 3) = sep then
              if idx + 4 < lenL then
                match getMonth (tk (idx + 4)) with
                | some m =>
                  .ok (idx + 4, ymd.append (m : Int) (tk (idx + 4)) (some .month),
                       res)
                | none =>
                  match strToInt (tk (idx + 4)) with
                  | some v4 => .ok (idx + 4, ymd.append v4 (tk (idx + 4)) none, res)
                  | none => .error .panic
              else .error .panic
            else .ok (idx + 2, ymd, res)
          else .ok (idx + 1, ymd, res)
      else if idx + 1 ≥ lenL ∨ getJump (tk (idx + 1)) then
        if idx + 2 < lenL ∧ (getAmpm (tk (idx + 2))).isSome then
          let hour := value.trunc
          let am := (getAmpm (tk (idx + 2))).getD false
          .ok (idx, ymd, { res with hour := some (adjustAmpm hour am) })
        else
          .ok (idx, ymd.append value.floor valueRepr none, res)
      else if (getAmpm (tk (idx + 1))).isSome ∧ Dtparse.Dec.intLe 0 value ∧ Dtparse.Dec.ltInt value 24 then
        -- 12am
        let hour := value.trunc
        .ok (idx + 1, ymd,
             { res with
                 hour := some (adjustAmpm hour ((getAmpm (tk (idx + 1))).getD false)) })
      else do
        let cbd ← ymd.couldBeDay (value.trunc)
        if cbd then
          .ok (idx, ymd.append (value.trunc) valueRepr none, res)
        else if ¬fuzzy then .error (.internalError .valueError)
        else .ok (idx, ymd, res)

/-- The token-walking loop of `Parser::parse_with_tokens`
(`src/lib.rs:949-1064`).  One unit of fuel is spent per iteration; `i`
increases by at least one each time, so `fuel = l.length + 1` never runs
out (exhaustion is modelled as a panic). -/
def mainLoop (refYear century : Int) (fuzzy : Bool) :
    Nat → Nat → List (List Char) → PRes → YMD → List Nat →
    Except PErr (List (List Char) × PRes × YMD × List Nat)
  | 0, i, l, res, ymd, skipped =>
    if i < l.length then .error .panic else .ok (l, res, ymd, skipped)
  | fuel + 1, i, l, res, ymd, skipped =>
    if i ≥ l.length then .ok (l, res, ymd, skipped)
    else
      let lenL := l.length
      let tk (j : Nat) : List Char := l.getD j []
      let valueRepr := tk i
      if (decimalFromStr valueRepr).isSome then
        match parseNumericToken l i ymd res fuzzy with
        | .error e => .error e
        | .ok (newIdx, ymd2, res2) =>
          mainLoop refYear century fuzzy fuel (newIdx + 1) l res2 ymd2 skipped
      else if (getWeekday valueRepr).isSome then
        mainLoop refYear century fuzzy fuel (i + 1) l
          { res with weekday := getWeekday valueRepr } ymd skipped
      else
        match getMonth valueRepr with
        | some m =>
          let ymd := ymd.append (m : Int) valueRepr (some .month)
          if i + 1 < lenL ∧ (tk (i + 1) = ['-'] ∨ tk (i + 1) = ['/']) then
            -- Jan-01[-99]
            let sep := tk (i + 1)
            if i + 2 < lenL then
              match strToInt (tk (i + 2)) with
              | none => .error .panic
              | some v =>
                let ymd := ymd.append v (tk (i + 2)) none
                if i + 3 < lenL ∧ tk (i + 3) = sep then
                  if i + 4 < lenL then
                    match strToInt (tk (i + 4)) with
                    | none => .error .panic
                    | some v2 =>
                      let ymd := ymd.append v2 (tk (i + 4)) none
                      mainLoop refYear century fuzzy fuel (i + 5) l res ymd skipped
                  else .error .panic
                else mainLoop refYear century fuzzy fuel (i + 3) l res ymd skipped
            else .error .panic
          else if i + 4 < lenL ∧ tk (i + 1) = tk (i + 3) ∧ tk (i + 3) = [' '] ∧
                  getPertain (tk (i + 2)) then
            -- Jan of 01
            let ymd :=
              match strToInt (tk (i + 4)) with
              | some value =>
                ymd.append (convertyear refYear century value false) (tk (i + 4))
                  (some .year)
              | none => ymd
            mainLoop refYear century fuzzy fuel (i + 5) l res ymd skipped
          else mainLoop refYear century fuzzy fuel (i + 1) l res ymd skipped
        | none =>
          match getAmpm valueRepr with
          | some value =>
            match ampmValid res.hour res.ampm fuzzy with
            | .ok _ =>
              match res.hour with
              | none => .error .panic
              | some h =>
                mainLoop refYear century fuzzy fuel (i + 1) l
                  { res with hour := some (adjustAmpm h value),
                             ampm := some value } ymd skipped
            | .error _ =>
              if fuzzy then
                mainLoop refYear century fuzzy fuel (i + 1) l res ymd
                  (skipped ++ [i])
              else mainLoop refYear century fuzzy fuel (i + 1) l res ymd skipped
          | none =>
            if couldBeTzname res.hour res.tzname res.tzoffset valueRepr then
              let tzname := valueRepr
              let res := { res with tzname := some tzname,
                                    tzoffset := (getTzoffset tzname).map
                                      (fun t => (t : Int)) }
              if i + 1 < lenL ∧ (tk (i + 1) = ['+'] ∨ tk (i + 1) = ['-']) then
                -- GMT+3: the replacement item is "-" in both arms
                let l := l.set (i + 1) ['-']
                let res := { res with tzoffset := none }
                let res :=
                  if getUtczone tzname then { res with tzname := none } else res
                mainLoop refYear century fuzzy fuel (i + 1) l res ymd skipped
              else mainLoop refYear century fuzzy fuel (i + 1) l res ymd skipped
            else if res.hour.isSome ∧ (valueRepr = ['+'] ∨ valueRepr = ['-'])
            then
              let signal : Int := if valueRepr = ['+'] then 1 else -1
              let lenLi := valueRepr.length
              -- the three offset shapes; each Rust index/slice/unwrap that
              -- can fail is a panic
              let shapes : Except PErr (Option Int × Option Int × Nat) :=
                if lenLi = 4 then
                  -- -0300
                  if i + 1 < lenL ∧ (tk (i + 1)).length ≥ 4 then
                    match strToInt ((tk (i + 1)).take 2),
                          strToInt (((tk (i + 1)).drop 2).take 2) with
                    | some h, some mn => .ok (some h, some mn, i)
                    | _, _ => .error .panic
                  else .error .panic
                else if i + 2 < lenL ∧ tk (i + 2) = [':'] then
                  -- -03:00
                  if i + 3 < lenL then
                    match strToInt (tk (i + 1)), strToInt (tk (i + 3)) with
                    | some h, some mn => .ok (some h, some mn, i + 2)
                    | _, _ => .error .panic
                  else .error .panic
                else if lenLi ≤ 2 then
                  -- -[0]3
                  if i + 1 < lenL ∧ (tk (i + 1)).length ≥ 2 then
                    match strToInt ((tk (i + 1)).take 2) with
                    | some h => .ok (some h, some 0, i)
                    | none => .error .panic
                  else .error .panic
                else .ok (none, none, i)
              match shapes with
              | .error e => .error e
              | .ok (hourOffset, minOffset, i2) =>
                match hourOffset, minOffset with
                | some ho, some mo =>
                  let res :=
                    { res with tzoffset := some (signal * (ho * 3600 + mo * 60)) }
                  let tzname := res.tzname
                  if i2 + 5 < lenL ∧ getJump (tk (i2 + 2)) ∧
                     tk (i2 + 3) = ['('] ∧ tk (i2 + 5) = [')'] ∧
                     3 ≤ (tk (i2 + 4)).length ∧
                     couldBeTzname res.hour tzname none (tk (i2 + 4)) then
                    -- (GMT)
                    let res := { res with tzname := some (tk (i2 + 4)) }
                    mainLoop refYear century fuzzy fuel (i2 + 6) l res ymd skipped
                  else mainLoop refYear century fuzzy fuel (i2 + 2) l res ymd skipped
                | _, _ => .error .panic
            else if ¬getJump valueRepr ∨ fuzzy then
              .error (.unrecognizedToken valueRepr)
            else
              mainLoop refYear century fuzzy fuel (i + 1) l res ymd (skipped ++ [i])

/-- `Parser::parse_with_tokens` (`src/lib.rs:918`), for the default
`Parser` (default word tables, empty `tzoffset` table, `dayfirst` and
`yearfirst` both false) with the clock-derived reference year passed as
`refYear`. -/
def parseWithTokens (refYear : Int) (timestr : List Char)
    (dayfirstArg yearfirstArg : Option Bool) (fuzzyArg fuzzyWithTokens : Bool) :
    Except PErr (PRes × Option (List (List Char))) := do
  let century := centuryOf refYear
  let fuzzy := if fuzzyWithTokens then true else fuzzyArg
  let dayfirst := dayfirstArg.getD false
  let yearfirst := yearfirstArg.getD false
  let l := tokenize timestr
  let out ← mainLoop refYear century fuzzy (l.length + 1) 0 l {} YMD.default []
  match out with
  | (l, res, ymd, skippedIdxs) =>
    let rymd ← YMD.resolveYmd ymd yearfirst dayfirst
    match rymd with
    | (year, month, day) =>
      let res := { res with centurySpecified := ymd.centurySpecified,
                            year := year, month := month, day := day }
      let res := validate refYear century res
      if fuzzyWithTokens then
        .ok (res, some (skippedIdxs.map (fun i => l.getD i [])))
      else .ok (res, none)

/-- A `chrono::NaiveDateTime`, as the tuple of fields the assembler reads
and writes. -/
structure Dt where
  year : Int
  month : Int
  day : Int
  hour : Int
  minute : Int
  second : Int
  micro : Int
  deriving DecidableEq, Repr

/-- Model of the true Gregorian month length used by `chrono` to decide
whether `NaiveDate::from_ymd` panics. -/
def chronoDaysInMonth (y m : Int) : Int :=
  let leap : Bool := (y.emod 4 = 0 ∧ y.emod 100 ≠ 0) ∨ y.emod 400 = 0
  if m = 2 then (if leap then 29 else 28)
  else if m = 4 ∨ m = 6 ∨ m = 9 ∨ m = 11 then 30
  else 31

/-- Modelled from the spec: the `weekday` module (`src/weekday.rs`) is not
under `src/`; only its callers are.  Per §4.7 and §9, when only a weekday
is given the default date is advanced (never retreated) to the requested
weekday.  `day_of_week` is modelled with Zeller's congruence shifted so
that 0 = Sunday (matching the `(weekday + 1) % 7` renumbering at the call
site in `build_naive`), and `difference` as the forward distance
`(other - self) mod 7`. -/
def dayOfWeek0Sun (y m d : Int) : Int :=
  let ym : Int × Int := if m ≤ 2 then (y - 1, m + 12) else (y, m)
  ((d + (13 * (ym.2 + 1)).ediv 5 + ym.1 + ym.1.ediv 4 - ym.1.ediv 100 +
    ym.1.ediv 400).emod 7 + 6).emod 7

/-- Calendar day addition, used for the weekday `Duration` offset. -/
def addDays : Int → Int → Int → Nat → Int × Int × Int
  | y, m, d, 0 => (y, m, d)
  | y, m, d, n + 1 =>
    if d + 1 ≤ chronoDaysInMonth y m then addDays y m (d + 1) n
    else if m = 12 then addDays (y + 1) 1 1 n
    else addDays y (m + 1) 1 n

/-- `Parser::build_naive` (`src/lib.rs:1119`).  `NaiveDate::from_ymd` and
`NaiveTime::from_hms_micro` panic on out-of-range components, modelled by
`PErr.panic`. -/
def buildNaive (res : PRes) (default : Dt) : Except PErr Dt := do
  let y := res.year.getD default.year
  let m := res.month.getD default.month
  let dOffset : Int :=
    if res.weekday.isSome ∧ res.day = none then
      let dow := dayOfWeek0Sun y m default.day
      let actualWeekday : Nat := ((res.weekday.getD 0) + 1) % 7
      ((actualWeekday : Int) - dow).emod 7
    else 0
  match daysInMonth y m with
  | .error _ => .error .invalidMonth
  | .ok dim =>
    let dayVal := min (res.day.getD default.day) (dim : Int)
    if 1 ≤ m ∧ m ≤ 12 ∧ 1 ≤ dayVal ∧ dayVal ≤ chronoDaysInMonth y m then
      let ymd2 := addDays y m dayVal dOffset.toNat
      let h := res.hour.getD default.hour
      let mn := res.minute.getD default.minute
      let sec := res.second.getD default.second
      let mic := res.microsecond.getD default.micro
      if 0 ≤ h ∧ h ≤ 23 ∧ 0 ≤ mn ∧ mn ≤ 59 ∧ 0 ≤ sec ∧ sec ≤ 59 ∧
         0 ≤ mic ∧ mic ≤ 999999 then
        .ok ⟨ymd2.1, ymd2.2.1, ymd2.2.2, h, mn, sec, mic⟩
      else .error .panic
    else .error .panic

/-- `Parser::build_tzaware` (`src/lib.rs:1155`); the returned
`FixedOffset` is modelled by its seconds-east value, and
`FixedOffset::east` panics outside `±86400` (exclusive). -/
def buildTzaware (res : PRes) (tzinfos : List (List Char × Int)) :
    Except PErr (Option Int) :=
  match res.tzoffset with
  | some offset =>
    if -86400 < offset ∧ offset < 86400 then .ok (some offset)
    else .error .panic
  | none =>
    if res.tzname = some [' '] ∨ res.tzname = some ['.'] ∨
       res.tzname = some ['-'] ∨ res.tzname = none then .ok none
    else
      match res.tzname with
      | some tz =>
        match tzinfos.lookup tz with
        | some off =>
          if -86400 < off ∧ off < 86400 then .ok (some off) else .error .panic
        | none => .ok none  -- logged, treated as no offset
      | none => .error .timezoneUnsupported

/-- `Parser::parse` (`src/lib.rs:889`): `Local::now()` is modelled by the
explicit `now` argument (only the date of the default is kept; its time is
replaced by 00:00:00 at `src/lib.rs:902`). -/
def parse (refYear : Int) (timestr : List Char)
    (dayfirstArg yearfirstArg : Option Bool) (fuzzy fuzzyWithTokens : Bool)
    (default : Option Dt) (now : Dt) (ignoretz : Bool)
    (tzinfos : List (List Char × Int)) :
    Except PErr (Dt × Option Int × Option (List (List Char))) := do
  let defaultDate := default.getD now
  let defaultTs : Dt :=
    ⟨defaultDate.year, defaultDate.month, defaultDate.day, 0, 0, 0, 0⟩
  let rt ← parseWithTokens refYear timestr dayfirstArg yearfirstArg fuzzy
    fuzzyWithTokens
  let naive ← buildNaive rt.1 defaultTs
  if ¬ignoretz then do
    let offset ← buildTzaware rt.1 tzinfos
    .ok (naive, offset, rt.2)
  else .ok (naive, none, rt.2)

end Dtparse

namespace Dtparse

/-- Per-character substitution allowed inside one token: a character is
kept, or a `','` becomes `'.'`. -/
def sub1 (c d : Char) : Prop := d = c ∨ (c = ',' ∧ d = '.')

/-- The per-character relation of the tokenizer round trip: a whitespace
character becomes a single space; any other character is kept, except that
a `','` may become `'.'`. -/
def tokChar (c d : Char) : Prop :=
  if isWsCh c then d = ' ' else sub1 c d

/-- Characters that the machine pushes while in a non-`Empty` state. -/
def okCh (c : Char) : Prop :=
  isAlphaCh c = true ∨ isNumCh c = true ∨ c = '.' ∨ c = ','

/-- Buffer invariant of the machine states: a `Numeric` buffer holds only
digits; a `NumericDecimal` buffer without a `'.'` holds only digits and
commas; an `AlphaDecimal` buffer contains a `'.'`. -/
def Inv : ParseState → List Char → Prop
  | .numeric, buf => ∀ c ∈ buf, isNumCh c = true
  | .numericDecimal, buf => '.' ∉ buf → ∀ c ∈ buf, isNumCh c = true ∨ c = ','
  | .alphaDecimal, buf => '.' ∈ buf
  | _, _ => True

end Dtparse

/-- **C3.** `days_in_month` does not apply the standard Gregorian leap rule:
the code tests `year % 4 == 0 && year % 400 != 0`, omitting the `% 100`
component, so February 2000 gets 28 days (claim: 29) and February 1900 gets
29 days (claim: 28).  This theorem evaluates the code at the two inputs
named by the claim and exhibits the divergence from the Gregorian rule. -/
theorem c3_days_in_month_leap_rule_bug :
    Dtparse.daysInMonth 2000 2 = .ok 28 ∧
    Dtparse.daysInMonth 1900 2 = .ok 29 ∧
    Dtparse.gregorianLeap 2000 = true ∧
    Dtparse.gregorianLeap 1900 = false := by
  constructor
  · rfl
  · exact ⟨rfl, rfl, rfl⟩

/-- **C4 (counterexample).** The claim "`convert_year(yy, false)` returns a
year lying in `[Y-49, Y+50]`" fails at reference year `Y = 2025`
(century `2000`) and two-digit year `yy = 75`: the code returns `1975`,
which is below `Y - 49 = 1976`. -/
theorem c4_interval_counterexample :
    Dtparse.convertyear 2025 (Dtparse.centuryOf 2025) 75 false = 1975 ∧
    ¬(2025 - 49 ≤ (1975 : Int) ∧ (1975 : Int) ≤ 2025 + 50) := by
  constructor
  · rfl
  · decide

/-- **C4 (amended).** For every two-digit year `0 ≤ yy < 100` appended
without `century_specified`, and every nonnegative reference year `Y` with
`century = Y/100*100`, `convert_year(yy, false)` returns a year in the
interval `[Y-50, Y+49]` (the code's comparison `year >= self.year + 50`
makes the window half-open at the top, not at the bottom). -/
theorem c4_convertyear_window (Y yy : Int) (hY : 0 ≤ Y)
    (h0 : 0 ≤ yy) (h1 : yy < 100) :
    Y - 50 ≤ Dtparse.convertyear Y (Dtparse.centuryOf Y) yy false ∧
    Dtparse.convertyear Y (Dtparse.centuryOf Y) yy false ≤ Y + 49 := by
  have htd : Y.tdiv 100 = Y / 100 := Int.tdiv_eq_ediv hY (by norm_num)
  have hmod : Y % 100 = Y - Y / 100 * 100 := by
    have := Int.ediv_add_emod Y 100
    omega
  have hmlt : Y % 100 < 100 := Int.emod_lt_of_pos Y (by norm_num)
  have hmge : 0 ≤ Y % 100 := Int.emod_nonneg Y (by norm_num)
  unfold Dtparse.convertyear Dtparse.centuryOf
  rw [htd]
  have hcond : yy < 100 ∧ ¬false = true := ⟨h1, by simp⟩
  rw [if_pos hcond]
  constructor <;> · dsimp only; split_ifs <;> omega

/-- **C4 (witness).** The amended window theorem applied at the concrete
input of the counterexample: `Y = 2025`, `yy = 75` gives `1975 ∈ [1975, 2074]`. -/
theorem c4_convertyear_window_witness :
    (0 : Int) ≤ 2025 ∧ (0 : Int) ≤ 75 ∧ (75 : Int) < 100 ∧
    (2025 - 50 ≤ Dtparse.convertyear 2025 (Dtparse.centuryOf 2025) 75 false ∧
     Dtparse.convertyear 2025 (Dtparse.centuryOf 2025) 75 false ≤ 2025 + 49) :=
  ⟨by norm_num, by norm_num, by norm_num,
   c4_convertyear_window 2025 75 (by norm_num) (by norm_num) (by norm_num)⟩

/-- **C9.** `resolve_ymd` on a `YMD` state holding exactly two collected
values and no year/month/day label: `(year=v0, month=v1)` if `v0 > 31`,
else `(year=v1, month=v0)` if `v1 > 31`, else `(month=v1, day=v0)` when
`dayfirst` and `v1 ≤ 12`, else `(month=v0, day=v1)`; the remaining
component is unset in each case. -/
theorem c9_resolve_two_unlabeled (yearfirst dayfirst : Bool) (cs : Bool)
    (v0 v1 : Int) :
    Dtparse.YMD.resolveYmd ⟨[v0, v1], cs, none, none, none⟩ yearfirst dayfirst =
      .ok (if v0 > 31 then (some v0, some v1, none)
           else if v1 > 31 then (some v1, some v0, none)
           else if dayfirst ∧ v1 ≤ 12 then (none, some v1, some v0)
           else (none, some v0, some v1)) := by
  unfold Dtparse.YMD.resolveYmd
  simp only [Dtparse.Strids.size]
  norm_num
  split_ifs <;> rfl

/-- **C1.** The claim says fuzzy mode skips unrecognized tokens and
succeeds.  The code at `src/lib.rs:1057` tests `!get_jump(l[i]) || fuzzy`
instead of `!(get_jump(l[i]) || fuzzy)`, so with `fuzzy = true` the parse
of `"x"` (a token that is no date/time element and no jump word) returns
`UnrecognizedToken("x")` instead of recording the index and succeeding,
for every reference year. -/
theorem c1_fuzzy_unknown_token_errors (refYear : Int) :
    Dtparse.parseWithTokens refYear "x".toList none none true false =
      .error (.unrecognizedToken ['x']) := by
  rfl

/-- **C2.** Parsing `"Thu Sep 25 2003"` (a date, no time of day) with the
explicit default 2003-09-25 10:36:28 returns 2003-09-25 **00:00:00**, not
the claimed 2003-09-25 10:36:28: `Parser::parse` (`src/lib.rs:902`)
rebuilds the default from its date and a 00:00:00 time, discarding the
default's time-of-day, for every reference year and clock value. -/
theorem c2_default_time_truncated (refYear : Int) (now : Dtparse.Dt) :
    Dtparse.parse refYear "Thu Sep 25 2003".toList none none false false
        (some ⟨2003, 9, 25, 10, 36, 28, 0⟩) now false [] =
      .ok (⟨2003, 9, 25, 0, 0, 0, 0⟩, none, none) := by
  rfl

/-- **C5.** In strict mode an AM/PM word with no hour set does not fail:
`ampm_valid` computes `Err(AmPmWithoutHour)` but the caller
(`src/lib.rs:988-993`) drops the error (the `else if fuzzy` arm is the
only error handling), so `parse("am")` succeeds with the default date.
Likewise an AM/PM word with hour 13 drops `Err(InvalidHour)`, and
`parse("13:00pm")` succeeds with hour 13. -/
theorem c5_ampm_errors_swallowed (refYear : Int) (now : Dtparse.Dt) :
    Dtparse.parse refYear "am".toList none none false false
        (some ⟨2003, 1, 1, 0, 0, 0, 0⟩) now false [] =
      .ok (⟨2003, 1, 1, 0, 0, 0, 0⟩, none, none) ∧
    Dtparse.parse refYear "13:00pm".toList none none false false
        (some ⟨2003, 1, 1, 0, 0, 0, 0⟩) now false [] =
      .ok (⟨2003, 1, 1, 13, 0, 0, 0⟩, none, none) ∧
    Dtparse.ampmValid none none false = .error .amPmWithoutHour ∧
    Dtparse.ampmValid (some 13) none false = .error .invalidHour := by
  exact ⟨rfl, rfl, rfl, rfl⟩

/-- **C6.** The offset branch (`src/lib.rs:1022`) measures
`len_li = l[i].len()`, the length of the *sign* token (always 1), not the
length of the token following the sign.  The `HHMM` shape is therefore
dead code and `"12:00 +0330"` falls into the `length ≤ 2` shape, which
reads only the first two digits: `tzoffset = +(3*3600) = 10800`, not the
claimed `3*3600 + 30*60 = 12600`, for every reference year. -/
theorem c6_offset_uses_sign_token_length (refYear : Int) :
    (Dtparse.parseWithTokens refYear "12:00 +0330".toList none none
        false false).map (fun rt => rt.1.tzoffset) = .ok (some 10800) := by
  rfl

/-- **C7.** The claim says the assembler never attempts to construct a
date with day 0.  On `"1/0/2000"` the resolver returns
`(year, month, day) = (2000, 1, 0)` and `build_naive` calls
`NaiveDate::from_ymd(2000, 1, min(0, 31))`, i.e. day 0, which panics in
`chrono` — so the parse aborts instead of returning an error value, for
every reference year and default. -/
theorem c7_day_zero_constructed (refYear : Int) (now : Dtparse.Dt) :
    (Dtparse.parseWithTokens refYear "1/0/2000".toList none none
        false false).map (fun rt => (rt.1.month, rt.1.day)) =
      .ok (some 1, some 0) ∧
    Dtparse.parse refYear "1/0/2000".toList none none false false
        (some ⟨2025, 1, 1, 0, 0, 0, 0⟩) now false [] = .error .panic := by
  exact ⟨rfl, rfl⟩

/-- **C10.** Parsing the empty string with the explicit default 2000-02-29
returns 2000-02-**28** 00:00:00: the month-end clamp in `build_naive` uses
the faulty `days_in_month`, which reports 28 days for February 2000, so
the default's own calendar date is not preserved (for every reference year
and clock value).  The time 00:00:00 and the absent offset do match the
claim. -/
theorem c10_empty_string_default_clamped (refYear : Int) (now : Dtparse.Dt) :
    Dtparse.parse refYear "".toList none none false false
        (some ⟨2000, 2, 29, 0, 0, 0, 0⟩) now false [] =
      .ok (⟨2000, 2, 28, 0, 0, 0, 0⟩, none, none) := by
  rfl

namespace Dtparse

theorem sub1_refl (c : Char) : sub1 c c := Or.inl rfl

theorem sub1_trans {a b c : Char} (h1 : sub1 a b) (h2 : sub1 b c) :
    sub1 a c := by
  rcases h1 with h1 | ⟨h1, h1d⟩ <;> rcases h2 with h2 | ⟨h2, h2d⟩ <;>
    subst_vars <;> simp_all [sub1]

theorem forall2_refl_sub1 (l : List Char) : List.Forall₂ sub1 l l := by
  induction l with
  | nil => exact .nil
  | cons c cs ih => exact .cons (sub1_refl c) ih

theorem forall2_sub1_map_comma (l : List Char) :
    List.Forall₂ sub1 l (l.map commaToDot) := by
  induction l with
  | nil => exact .nil
  | cons c cs ih =>
    refine .cons ?_ ih
    by_cases h : c = ','
    · subst h; exact Or.inr ⟨rfl, rfl⟩
    · simp [commaToDot, h, sub1]

theorem forall2_append_rel {R : Char → Char → Prop} {a b u v : List Char}
    (h1 : List.Forall₂ R a b) (h2 : List.Forall₂ R u v) :
    List.Forall₂ R (a ++ u) (b ++ v) := by
  induction h1 with
  | nil => exact h2
  | cons hc _ ih => exact .cons hc ih

theorem forall2_sub1_trans {a b c : List Char}
    (h1 : List.Forall₂ sub1 a b) (h2 : List.Forall₂ sub1 b c) :
    List.Forall₂ sub1 a c := by
  induction h1 generalizing c with
  | nil => cases h2; exact .nil
  | cons hc _ ih =>
    cases h2 with
    | cons hc2 ht2 => exact .cons (sub1_trans hc hc2) (ih ht2)

/-- `decimal_split` with `cast_period = false` is the identity on the
character stream. -/
theorem ds_false_join : ∀ (l acc : List Char) (st : ParseState),
    (st = .alpha ∨ st = .numeric ∨ st = .empty) → (st = .empty → acc = []) →
    (decimalSplit false st acc l).flatten = acc ++ l := by
  intro l
  induction l with
  | nil =>
    intro acc st hst hacc
    rcases hst with h | h | h <;> subst h <;> simp_all [decimalSplit]
  | cons c rest ih =>
    intro acc st hst hacc
    rcases hst with h | h | h <;> subst h
    · by_cases hc : isAlphaCh c
      · simp [decimalSplit, hc, ih (acc ++ [c]) .alpha (Or.inl rfl) (by simp)]
      · simp [decimalSplit, hc,
          ih [] .empty (Or.inr (Or.inr rfl)) (fun _ => rfl)]
    · by_cases hc : isNumCh c
      · simp [decimalSplit, hc,
          ih (acc ++ [c]) .numeric (Or.inr (Or.inl rfl)) (by simp)]
      · simp [decimalSplit, hc,
          ih [] .empty (Or.inr (Or.inr rfl)) (fun _ => rfl)]
    · have hae : acc = [] := hacc rfl
      subst hae
      by_cases hc : isAlphaCh c
      · simp [decimalSplit, hc, ih [c] .alpha (Or.inl rfl) (by simp)]
      · by_cases hn : isNumCh c
        · simp [decimalSplit, hc, hn,
            ih [c] .numeric (Or.inr (Or.inl rfl)) (by simp)]
        · simp [decimalSplit, hc, hn,
            ih [] .empty (Or.inr (Or.inr rfl)) (fun _ => rfl)]

theorem num_not_alpha {c : Char} (h : isNumCh c = true) :
    isAlphaCh c = false := by
  simp only [isNumCh, Bool.and_eq_true, decide_eq_true_eq] at h
  simp only [isAlphaCh, Bool.or_eq_false_iff, Bool.and_eq_false_iff,
    decide_eq_false_iff_not, Nat.not_le]
  omega

theorem char_of_toNat_ne {c d : Char} (h : c.toNat ≠ d.toNat) : c ≠ d := by
  intro he; exact h (he ▸ rfl)

theorem num_ne_comma {c : Char} (h : isNumCh c = true) : c ≠ ',' := by
  simp only [isNumCh, Bool.and_eq_true, decide_eq_true_eq] at h
  exact char_of_toNat_ne (by change _ ≠ 44; omega)

/-- `decimal_split` with `cast_period = true` on a buffer of digits and
commas replaces each comma by a period. -/
theorem ds_true_join : ∀ (l acc : List Char) (st : ParseState),
    ((st = .numeric ∧ ∀ c ∈ acc, isNumCh c) ∨ (st = .empty ∧ acc = [])) →
    (∀ c ∈ l, isNumCh c ∨ c = ',') →
    (decimalSplit true st acc l).flatten = acc ++ l.map commaToDot := by
  intro l
  induction l with
  | nil =>
    intro acc st hst _
    rcases hst with ⟨h, _⟩ | ⟨h, ha⟩ <;> subst h <;> simp_all [decimalSplit]
  | cons c rest ih =>
    intro acc st hst hl
    have hc := hl c (List.mem_cons_self c rest)
    have hrest : ∀ x ∈ rest, isNumCh x ∨ x = ',' :=
      fun x hx => hl x (List.mem_cons_of_mem c hx)
    rcases hst with ⟨h, hacc⟩ | ⟨h, hacc⟩ <;> subst h
    · rcases hc with hn | hn
      · have hconcat : ∀ x ∈ acc ++ [c], isNumCh x := by
          intro x hx
          rcases List.mem_append.1 hx with hx | hx
          · exact hacc x hx
          · simp only [List.mem_singleton] at hx; exact hx ▸ hn
        simp [decimalSplit, hn,
          ih (acc ++ [c]) .numeric (Or.inl ⟨rfl, hconcat⟩) hrest,
          commaToDot, num_ne_comma hn]
      · subst hn
        simp [decimalSplit, isNumCh,
          ih [] .empty (Or.inr ⟨rfl, rfl⟩) hrest, commaToDot]
    · subst hacc
      rcases hc with hn | hn
      · have h1 : ∀ x ∈ ([c] : List Char), isNumCh x := by
          intro x hx; simp only [List.mem_singleton] at hx; exact hx ▸ hn
        simp [decimalSplit, num_not_alpha hn, hn,
          ih [c] .numeric (Or.inl ⟨rfl, h1⟩) hrest, commaToDot,
          num_ne_comma hn]
      · subst hn
        simp [decimalSplit, isAlphaCh, isNumCh,
          ih [] .empty (Or.inr ⟨rfl, rfl⟩) hrest, commaToDot]

theorem okCh_not_ws {c : Char} (h : okCh c) : isWsCh c = false := by
  rcases h with h | h | h | h
  · simp only [isAlphaCh, Bool.or_eq_true, Bool.and_eq_true,
      decide_eq_true_eq] at h
    simp only [isWsCh, Bool.or_eq_false_iff, decide_eq_false_iff_not]
    omega
  · simp only [isNumCh, Bool.and_eq_true, decide_eq_true_eq] at h
    simp only [isWsCh, Bool.or_eq_false_iff, decide_eq_false_iff_not]
    omega
  · subst h; decide
  · subst h; decide

theorem forall2_sub1_single (buf : List Char) :
    List.Forall₂ sub1 buf ([buf] : List (List Char)).flatten := by
  have h2 : ([buf] : List (List Char)).flatten = buf := by simp
  rw [h2]; exact forall2_refl_sub1 buf

theorem splitToks_sub1 (buf : List Char) (seen : Bool) (st : ParseState)
    (hInv : Inv st buf) :
    List.Forall₂ sub1 buf (splitToks buf seen st).flatten := by
  cases st with
  | empty => exact forall2_sub1_single buf
  | alpha => exact forall2_sub1_single buf
  | numeric => exact forall2_sub1_single buf
  | alphaDecimal =>
    by_cases hs : needsSplit buf seen
    · have h : splitToks buf seen .alphaDecimal =
          decimalSplit false .empty [] buf := by simp [splitToks, hs]
      rw [h, ds_false_join buf [] .empty (Or.inr (Or.inr rfl)) (fun _ => rfl)]
      exact forall2_refl_sub1 buf
    · have h : splitToks buf seen .alphaDecimal = [buf] := by
        simp [splitToks, hs]
      rw [h]; exact forall2_sub1_single buf
  | numericDecimal =>
    by_cases hs : needsSplit buf seen
    · by_cases hd : buf.count '.' = 0
      · have hnotin : '.' ∉ buf := List.count_eq_zero.mp hd
        have hchars := hInv hnotin
        have h : splitToks buf seen .numericDecimal =
            decimalSplit true .empty [] buf := by
          simp [splitToks, hs, hd]
        rw [h, ds_true_join buf [] .empty (Or.inr ⟨rfl, rfl⟩) hchars]
        exact forall2_sub1_map_comma buf
      · have h : splitToks buf seen .numericDecimal =
            decimalSplit false .empty [] buf := by
          simp [splitToks, hs, hd]
        rw [h, ds_false_join buf [] .empty (Or.inr (Or.inr rfl)) (fun _ => rfl)]
        exact forall2_refl_sub1 buf
    · have h : splitToks buf seen .numericDecimal = [buf] := by
        simp [splitToks, hs]
      rw [h]; exact forall2_sub1_single buf

theorem normFirst_sub1 (st : ParseState) (toks : List (List Char)) :
    List.Forall₂ sub1 toks.flatten ((normFirst st toks).flatten) := by
  cases toks with
  | nil => exact .nil
  | cons t ts =>
    simp only [normFirst, List.flatten_cons]
    refine forall2_append_rel ?_ (forall2_refl_sub1 _)
    split
    · exact forall2_sub1_map_comma t
    · exact forall2_refl_sub1 t

/-- The emitted tokens of one machine run relate character-wise to the
buffer by the in-token substitution. -/
theorem emit_sub1 (buf : List Char) (seen : Bool) (st : ParseState)
    (hInv : Inv st buf) :
    List.Forall₂ sub1 buf (emitTokens buf seen st).flatten :=
  forall2_sub1_trans (splitToks_sub1 buf seen st hInv)
    (normFirst_sub1 st (splitToks buf seen st))

theorem cons_prefix_step {c : Char} {rest mid X : List Char}
    (h : rest = mid ++ X) : c :: rest = (c :: mid) ++ X := by
  rw [h]; rfl

theorem mem_of_getLast?_eq {l : List Char} {a : Char}
    (h : l.getLast? = some a) : a ∈ l := by
  have hmem : a ∈ l.getLast? := Option.mem_def.mpr h
  rcases List.mem_getLast?_eq_getLast hmem with ⟨hne, heq⟩
  rw [heq]; exact List.getLast_mem hne

/-- One machine run started in a non-`Empty` state consumes a prefix of
characters, appends exactly those characters to the buffer, stays in a
non-`Empty` state, preserves the buffer invariant, and consumes only
word-class characters. -/
theorem runMachine_spec (seen : Bool) : ∀ (input : List Char)
    (st : ParseState) (buf : List Char), st ≠ .empty → Inv st buf →
    ∃ mid, input = mid ++ (runMachine st buf seen input).rest ∧
      (runMachine st buf seen input).buf = buf ++ mid ∧
      (runMachine st buf seen input).state ≠ .empty ∧
      Inv (runMachine st buf seen input).state
        (runMachine st buf seen input).buf ∧
      (∀ c ∈ mid, okCh c) := by
  intro input
  induction input with
  | nil =>
    intro st buf hne hInv
    refine ⟨[], by simp [runMachine], by simp [runMachine], ?_, ?_, by simp⟩
    · simpa [runMachine] using hne
    · simpa [runMachine] using hInv
  | cons c rest ih =>
    intro st buf hne hInv
    cases st with
    | empty => exact absurd rfl hne
    | alpha =>
      by_cases h1 : isAlphaCh c
      · have hr : runMachine .alpha buf seen (c :: rest) =
            runMachine .alpha (buf ++ [c]) seen rest := by
          simp [runMachine, h1]
        rcases ih .alpha (buf ++ [c]) (by simp) trivial with
          ⟨mid, hm1, hm2, hm3, hm4, hm5⟩
        refine ⟨c :: mid, ?_, ?_, ?_, ?_, ?_⟩
        · rw [hr]; exact cons_prefix_step hm1
        · rw [hr, hm2]; simp
        · rw [hr]; exact hm3
        · rw [hr]; exact hm4
        · intro x hx
          rcases List.mem_cons.1 hx with hx | hx
          · exact hx ▸ Or.inl h1
          · exact hm5 x hx
      · by_cases h2 : c = '.'
        · subst h2
          have hr : runMachine .alpha buf seen ('.' :: rest) =
              runMachine .alphaDecimal (buf ++ ['.']) seen rest := by
            simp [runMachine, h1]
          have hInv2 : Inv .alphaDecimal (buf ++ ['.']) := by
            simp [Inv]
          rcases ih .alphaDecimal (buf ++ ['.']) (by simp) hInv2 with
            ⟨mid, hm1, hm2, hm3, hm4, hm5⟩
          refine ⟨'.' :: mid, ?_, ?_, ?_, ?_, ?_⟩
          · rw [hr]; exact cons_prefix_step hm1
          · rw [hr, hm2]; simp
          · rw [hr]; exact hm3
          · rw [hr]; exact hm4
          · intro x hx
            rcases List.mem_cons.1 hx with hx | hx
            · exact hx ▸ Or.inr (Or.inr (Or.inl rfl))
            · exact hm5 x hx
        · have hr : runMachine .alpha buf seen (c :: rest) =
              ⟨buf, seen, .alpha, c :: rest⟩ := by
            simp [runMachine, h1, h2]
          refine ⟨[], by rw [hr]; rfl, by rw [hr]; simp, by rw [hr]; simp,
            by rw [hr]; exact hInv, by simp⟩
    | numeric =>
      by_cases h1 : isNumCh c
      · have hr : runMachine .numeric buf seen (c :: rest) =
            runMachine .numeric (buf ++ [c]) seen rest := by
          simp [runMachine, h1]
        have hInv2 : Inv .numeric (buf ++ [c]) := by
          intro x hx
          rcases List.mem_append.1 hx with hx | hx
          · exact hInv x hx
          · simp only [List.mem_singleton] at hx; exact hx ▸ h1
        rcases ih .numeric (buf ++ [c]) (by simp) hInv2 with
          ⟨mid, hm1, hm2, hm3, hm4, hm5⟩
        refine ⟨c :: mid, ?_, ?_, ?_, ?_, ?_⟩
        · rw [hr]; exact cons_prefix_step hm1
        · rw [hr, hm2]; simp
        · rw [hr]; exact hm3
        · rw [hr]; exact hm4
        · intro x hx
          rcases List.mem_cons.1 hx with hx | hx
          · exact hx ▸ Or.inr (Or.inl h1)
          · exact hm5 x hx
      · by_cases h2 : c = '.' ∨ (c = ',' ∧ buf.length ≥ 2)
        · have hr : runMachine .numeric buf seen (c :: rest) =
              runMachine .numericDecimal (buf ++ [c]) seen rest := by
            simp only [runMachine]
            rw [if_neg (by simp [h1]), if_pos h2]
          have hInv2 : Inv .numericDecimal (buf ++ [c]) := by
            intro hnotin x hx
            rcases h2 with h2 | ⟨h2, _⟩
            · exact absurd (by simp [h2] : '.' ∈ buf ++ [c]) hnotin
            · rcases List.mem_append.1 hx with hx | hx
              · exact Or.inl (hInv x hx)
              · simp only [List.mem_singleton] at hx
                exact Or.inr (hx ▸ h2)
          rcases ih .numericDecimal (buf ++ [c]) (by simp) hInv2 with
            ⟨mid, hm1, hm2, hm3, hm4, hm5⟩
          refine ⟨c :: mid, ?_, ?_, ?_, ?_, ?_⟩
          · rw [hr]; exact cons_prefix_step hm1
          · rw [hr, hm2]; simp
          · rw [hr]; exact hm3
          · rw [hr]; exact hm4
          · intro x hx
            rcases List.mem_cons.1 hx with hx | hx
            · rcases h2 with h2 | ⟨h2, _⟩
              · exact hx ▸ Or.inr (Or.inr (Or.inl h2))
              · exact hx ▸ Or.inr (Or.inr (Or.inr h2))
            · exact hm5 x hx
        · have hr : runMachine .numeric buf seen (c :: rest) =
              ⟨buf, seen, .numeric, c :: rest⟩ := by
            simp only [runMachine]
            rw [if_neg (by simp [h1]), if_neg h2]
          refine ⟨[], by rw [hr]; rfl, by rw [hr]; simp, by rw [hr]; simp,
            by rw [hr]; exact hInv, by simp⟩
    | alphaDecimal =>
      by_cases h1 : c = '.' ∨ isAlphaCh c
      · have hr : runMachine .alphaDecimal buf seen (c :: rest) =
            runMachine .alphaDecimal (buf ++ [c]) seen rest := by
          simp only [runMachine]
          rw [if_pos h1]
        have hInv2 : Inv .alphaDecimal (buf ++ [c]) := by
          simp only [Inv] at hInv ⊢
          exact List.mem_append.2 (Or.inl hInv)
        rcases ih .alphaDecimal (buf ++ [c]) (by simp) hInv2 with
          ⟨mid, hm1, hm2, hm3, hm4, hm5⟩
        refine ⟨c :: mid, ?_, ?_, ?_, ?_, ?_⟩
        · rw [hr]; exact cons_prefix_step hm1
        · rw [hr, hm2]; simp
        · rw [hr]; exact hm3
        · rw [hr]; exact hm4
        · intro x hx
          rcases List.mem_cons.1 hx with hx | hx
          · rcases h1 with h1 | h1
            · exact hx ▸ Or.inr (Or.inr (Or.inl h1))
            · exact hx ▸ Or.inl h1
          · exact hm5 x hx
      · by_cases h2 : isNumCh c ∧ buf.getLast? = some '.'
        · have hr : runMachine .alphaDecimal buf seen (c :: rest) =
              runMachine .numericDecimal (buf ++ [c]) seen rest := by
            simp only [runMachine]
            rw [if_neg h1, if_pos h2]
          have hInv2 : Inv .numericDecimal (buf ++ [c]) := by
            intro hnotin _ _
            exact absurd
              (List.mem_append.2 (Or.inl (mem_of_getLast?_eq h2.2))) hnotin
          rcases ih .numericDecimal (buf ++ [c]) (by simp) hInv2 with
            ⟨mid, hm1, hm2, hm3, hm4, hm5⟩
          refine ⟨c :: mid, ?_, ?_, ?_, ?_, ?_⟩
          · rw [hr]; exact cons_prefix_step hm1
          · rw [hr, hm2]; simp
          · rw [hr]; exact hm3
          · rw [hr]; exact hm4
          · intro x hx
            rcases List.mem_cons.1 hx with hx | hx
            · exact hx ▸ Or.inr (Or.inl h2.1)
            · exact hm5 x hx
        · have hr : runMachine .alphaDecimal buf seen (c :: rest) =
              ⟨buf, seen, .alphaDecimal, c :: rest⟩ := by
            simp only [runMachine]
            rw [if_neg h1, if_neg h2]
          refine ⟨[], by rw [hr]; rfl, by rw [hr]; simp, by rw [hr]; simp,
            by rw [hr]; exact hInv, by simp⟩
    | numericDecimal =>
      by_cases h1 : c = '.' ∨ isNumCh c
      · have hr : runMachine .numericDecimal buf seen (c :: rest) =
            runMachine .numericDecimal (buf ++ [c]) seen rest := by
          simp only [runMachine]
          rw [if_pos h1]
        have hInv2 : Inv .numericDecimal (buf ++ [c]) := by
          intro hnotin x hx
          have hc' : c ≠ '.' := by
            intro he
            exact hnotin (List.mem_append.2 (Or.inr (by simp [he])))
          have hcnum : isNumCh c = true := by
            rcases h1 with h1 | h1
            · exact absurd h1 hc'
            · exact h1
          have hnotin0 : '.' ∉ buf :=
            fun hmem => hnotin (List.mem_append.2 (Or.inl hmem))
          rcases List.mem_append.1 hx with hx | hx
          · exact hInv hnotin0 x hx
          · simp only [List.mem_singleton] at hx
            exact Or.inl (hx ▸ hcnum)
        rcases ih .numericDecimal (buf ++ [c]) (by simp) hInv2 with
          ⟨mid, hm1, hm2, hm3, hm4, hm5⟩
        refine ⟨c :: mid, ?_, ?_, ?_, ?_, ?_⟩
        · rw [hr]; exact cons_prefix_step hm1
        · rw [hr, hm2]; simp
        · rw [hr]; exact hm3
        · rw [hr]; exact hm4
        · intro x hx
          rcases List.mem_cons.1 hx with hx | hx
          · rcases h1 with h1 | h1
            · exact hx ▸ Or.inr (Or.inr (Or.inl h1))
            · exact hx ▸ Or.inr (Or.inl h1)
          · exact hm5 x hx
      · by_cases h2 : isAlphaCh c ∧ buf.getLast? = some '.'
        · have hr : runMachine .numericDecimal buf seen (c :: rest) =
              runMachine .alphaDecimal (buf ++ [c]) seen rest := by
            simp only [runMachine]
            rw [if_neg h1, if_pos h2]
          have hInv2 : Inv .alphaDecimal (buf ++ [c]) := by
            simp only [Inv]
            exact List.mem_append.2 (Or.inl (mem_of_getLast?_eq h2.2))
          rcases ih .alphaDecimal (buf ++ [c]) (by simp) hInv2 with
            ⟨mid, hm1, hm2, hm3, hm4, hm5⟩
          refine ⟨c :: mid, ?_, ?_, ?_, ?_, ?_⟩
          · rw [hr]; exact cons_prefix_step hm1
          · rw [hr, hm2]; simp
          · rw [hr]; exact hm3
          · rw [hr]; exact hm4
          · intro x hx
            rcases List.mem_cons.1 hx with hx | hx
            · exact hx ▸ Or.inl h2.1
            · exact hm5 x hx
        · have hr : runMachine .numericDecimal buf seen (c :: rest) =
              ⟨buf, seen, .numericDecimal, c :: rest⟩ := by
            simp only [runMachine]
            rw [if_neg h1, if_neg h2]
          refine ⟨[], by rw [hr]; rfl, by rw [hr]; simp, by rw [hr]; simp,
            by rw [hr]; exact hInv, by simp⟩

theorem forall2_sub1_tokChar : ∀ {a b : List Char},
    (∀ x ∈ a, okCh x) → List.Forall₂ sub1 a b → List.Forall₂ tokChar a b := by
  intro a b hok h
  induction h with
  | nil => exact .nil
  | @cons x y xs ys hxy _ ih =>
    refine .cons ?_ (ih (fun z hz => hok z (List.mem_cons_of_mem x hz)))
    have hx := okCh_not_ws (hok x (List.mem_cons_self x xs))
    simpa [tokChar, hx] using hxy

/-- One `Tokenizer::next` machine run on a non-empty input consumes a
non-empty prefix whose characters relate to the emitted tokens by the
round-trip relation. -/
theorem step_spec (c : Char) (cs : List Char) :
    ∃ mid, c :: cs = mid ++ (runMachine .empty [] false (c :: cs)).rest ∧
      mid ≠ [] ∧
      List.Forall₂ tokChar mid
        (emitTokens (runMachine .empty [] false (c :: cs)).buf
          (runMachine .empty [] false (c :: cs)).seen
          (runMachine .empty [] false (c :: cs)).state).flatten := by
  by_cases hd : isNumCh c
  · have hr : runMachine .empty [] false (c :: cs) =
        runMachine .numeric [c] false cs := by
      simp [runMachine, hd]
    have hInv1 : Inv .numeric [c] := by
      intro x hx; simp only [List.mem_singleton] at hx; exact hx ▸ hd
    rcases runMachine_spec false cs .numeric [c] (by simp) hInv1 with
      ⟨mid, hm1, hm2, hm3, hm4, hm5⟩
    refine ⟨c :: mid, ?_, by simp, ?_⟩
    · rw [hr]; exact cons_prefix_step hm1
    · have hok : ∀ x ∈ c :: mid, okCh x := by
        intro x hx
        rcases List.mem_cons.1 hx with hx | hx
        · exact hx ▸ Or.inr (Or.inl hd)
        · exact hm5 x hx
      have hbuf : (runMachine .numeric [c] false cs).buf = c :: mid := by
        rw [hm2]; rfl
      rw [hr]
      exact forall2_sub1_tokChar hok
        (hbuf ▸ emit_sub1 _ _ _ ((hbuf ▸ hm4 : _)))
  · by_cases ha : isAlphaCh c
    · have hr : runMachine .empty [] false (c :: cs) =
          runMachine .alpha [c] true cs := by
        simp [runMachine, hd, ha]
      rcases runMachine_spec true cs .alpha [c] (by simp) trivial with
        ⟨mid, hm1, hm2, hm3, hm4, hm5⟩
      refine ⟨c :: mid, ?_, by simp, ?_⟩
      · rw [hr]; exact cons_prefix_step hm1
      · have hok : ∀ x ∈ c :: mid, okCh x := by
          intro x hx
          rcases List.mem_cons.1 hx with hx | hx
          · exact hx ▸ Or.inl ha
          · exact hm5 x hx
        have hbuf : (runMachine .alpha [c] true cs).buf = c :: mid := by
          rw [hm2]; rfl
        rw [hr]
        exact forall2_sub1_tokChar hok
          (hbuf ▸ emit_sub1 _ _ _ ((hbuf ▸ hm4 : _)))
    · by_cases hw : isWsCh c
      · have hr : runMachine .empty [] false (c :: cs) =
            ⟨[' '], false, .empty, cs⟩ := by
          simp [runMachine, hd, ha, hw]
        refine ⟨[c], by rw [hr]; rfl, by simp, ?_⟩
        rw [hr]
        have he : (emitTokens [' '] false .empty).flatten = [' '] := rfl
        rw [he]
        exact .cons (by simp [tokChar, hw]) .nil
      · have hr : runMachine .empty [] false (c :: cs) =
            ⟨[c], false, .empty, cs⟩ := by
          simp [runMachine, hd, ha, hw]
        refine ⟨[c], by rw [hr]; rfl, by simp, ?_⟩
        rw [hr]
        have he : (emitTokens [c] false .empty).flatten = [c] := by
          simp [emitTokens, splitToks, normFirst]
        rw [he]
        exact .cons (by simp [tokChar, hw, sub1_refl]) .nil

/-- The tokenizer loop relates the whole input to the concatenation of all
emitted tokens, as long as the fuel covers the input length. -/
theorem tokenizeFuel_rel : ∀ (fuel : Nat) (input : List Char),
    input.length ≤ fuel →
    List.Forall₂ tokChar input (tokenizeFuel fuel input).flatten := by
  intro fuel
  induction fuel with
  | zero =>
    intro input h
    have h0 : input = [] := List.length_eq_zero.mp (Nat.le_zero.mp h)
    subst h0
    exact .nil
  | succ n ih =>
    intro input h
    cases input with
    | nil => exact .nil
    | cons c cs =>
      set r := runMachine .empty [] false (c :: cs) with hrdef
      obtain ⟨mid, hsplit, hne, hrel⟩ := step_spec c cs
      rw [← hrdef] at hsplit hrel
      have hunfold : tokenizeFuel (n + 1) (c :: cs) =
          emitTokens r.buf r.seen r.state ++ tokenizeFuel n r.rest := by
        rw [hrdef]; rfl
      have hmid : 1 ≤ mid.length := by
        cases mid with
        | nil => exact absurd rfl hne
        | cons _ _ => simp
      have hlentot : (c :: cs).length = mid.length + r.rest.length := by
        conv_lhs => rw [hsplit]
        simp
      have hlen : r.rest.length ≤ n := by
        simp only [List.length_cons] at hlentot h
        omega
      rw [hunfold, List.flatten_append, hsplit]
      exact forall2_append_rel hrel (ih r.rest hlen)

end Dtparse

/-- **C8.** Tokenizer round trip: for every input string, the
concatenation of the tokens returned by `tokenize` equals the input up to
exactly two per-character transformations: each whitespace character is
replaced by a single space, and a `','` may be replaced by `'.'` (the
comma normalization of pure numeric decimal tokens); every other character
is preserved in place. -/
theorem c8_tokenize_roundtrip (s : List Char) :
    List.Forall₂ Dtparse.tokChar s (Dtparse.tokenize s).flatten :=
  Dtparse.tokenizeFuel_rel s.length s (Nat.le_refl _)
